import Mathlib

/-!
Verification of the simplesftp download engine and its collaborators.

Each Rust source function referenced by the specification is shallowly
embedded as an executable Lean definition, keeping the source's structure
and names.  Machine integers are modelled as `Nat` (with explicit `% 2^64`
where u64 overflow matters), fallible Rust functions return `Except`,
and the Tokio actor in `download_manager.rs` is modelled as an explicit
transition system: dispatcher commands and worker loop iterations are the
atomic steps (the source observes pause/cancel only at chunk boundaries,
so a worker loop iteration is the natural granularity).
-/

/-! ## Schedule evaluator (`src/scheduler.rs`, `src/settings.rs`) -/

/-- `chrono::Weekday`. -/
inductive Weekday where
  | mon | tue | wed | thu | fri | sat | sun
deriving DecidableEq, Repr

/-- The weekday of `now - Duration::days(1)`. -/
def Weekday.pred : Weekday → Weekday
  | .mon => .sun
  | .tue => .mon
  | .wed => .tue
  | .thu => .wed
  | .fri => .thu
  | .sat => .fri
  | .sun => .sat

/-- `settings.rs` `TimeOfDay` (hour 0-23, minute 0-59; u8 in the source). -/
structure TimeOfDay where
  hour : Nat
  minute : Nat
deriving DecidableEq, Repr

/-- `settings.rs` `WeekDays`. -/
structure WeekDays where
  mon : Bool
  tue : Bool
  wed : Bool
  thu : Bool
  fri : Bool
  sat : Bool
  sun : Bool
deriving DecidableEq, Repr

/-- `settings.rs` `ScheduleMode`. -/
inductive ScheduleMode where
  | None | Daily | Weekly
deriving DecidableEq, Repr

/-- `settings.rs` `ScheduleConfig`. -/
structure ScheduleConfig where
  mode : ScheduleMode
  start_time : TimeOfDay
  end_time : TimeOfDay
  days : WeekDays
deriving DecidableEq, Repr

/-- The fields of the wall-clock instant `now : DateTime<Local>` that
`scheduler.rs` reads: weekday, hour and minute. -/
structure Instant where
  weekday : Weekday
  hour : Nat
  minute : Nat
deriving DecidableEq, Repr

namespace Scheduler

/-- `Scheduler::check_day_enabled`. -/
def check_day_enabled (days : WeekDays) : Weekday → Bool
  | .mon => days.mon
  | .tue => days.tue
  | .wed => days.wed
  | .thu => days.thu
  | .fri => days.fri
  | .sat => days.sat
  | .sun => days.sun

/-- `Scheduler::check_time`. -/
def check_time (config : ScheduleConfig) (now : Instant) : Bool :=
  let current_minutes := now.hour * 60 + now.minute
  let start_minutes := config.start_time.hour * 60 + config.start_time.minute
  let end_minutes := config.end_time.hour * 60 + config.end_time.minute
  if start_minutes = end_minutes then
    true
  else if start_minutes < end_minutes then
    -- Normal day range
    decide (current_minutes ≥ start_minutes ∧ current_minutes < end_minutes)
  else
    -- Overnight range
    decide (current_minutes ≥ start_minutes ∨ current_minutes < end_minutes)

/-- `Scheduler::check_weekly`. -/
def check_weekly (config : ScheduleConfig) (now : Instant) : Bool :=
  let current_minutes := now.hour * 60 + now.minute
  let start_minutes := config.start_time.hour * 60 + config.start_time.minute
  let end_minutes := config.end_time.hour * 60 + config.end_time.minute
  if start_minutes = end_minutes then
    -- If full day, just check today
    check_day_enabled config.days now.weekday
  else if start_minutes < end_minutes then
    -- Normal day range: must be allowed today AND in time range
    if current_minutes ≥ start_minutes ∧ current_minutes < end_minutes then
      check_day_enabled config.days now.weekday
    else
      false
  else
    -- Overnight range
    if current_minutes ≥ start_minutes then
      -- Evening side: use today's permission
      check_day_enabled config.days now.weekday
    else if current_minutes < end_minutes then
      -- Morning side: use yesterday's permission
      check_day_enabled config.days now.weekday.pred
    else
      false

/-- `Scheduler::is_allowed`. -/
def is_allowed (config : ScheduleConfig) (now : Instant) : Bool :=
  match config.mode with
  | .None => true
  | .Daily => check_time config now
  | .Weekly => check_weekly config now

/-- The schedule evaluator as the specification states it, written from the
spec's case analysis: mode None is always allowed; with `current`, `start`,
`end` in minutes, `start = end` means the window is all day, `start < end`
allows iff `start ≤ current < end`, and `start > end` allows iff
`current ≥ start ∨ current < end`; Daily mode returns the window answer,
and Weekly mode additionally gates by the weekday set, where for overnight
windows the evening side (`current ≥ start`) consults today's weekday and
the morning side (`current < end`) consults yesterday's weekday. -/
def is_allowed_spec (config : ScheduleConfig) (now : Instant) : Bool :=
  let current := now.hour * 60 + now.minute
  let startM := config.start_time.hour * 60 + config.start_time.minute
  let endM := config.end_time.hour * 60 + config.end_time.minute
  let window : Bool :=
    if startM = endM then true
    else if startM < endM then decide (startM ≤ current ∧ current < endM)
    else decide (current ≥ startM ∨ current < endM)
  match config.mode with
  | .None => true
  | .Daily => window
  | .Weekly =>
    if startM = endM then
      check_day_enabled config.days now.weekday
    else if startM < endM then
      window && check_day_enabled config.days now.weekday
    else
      (decide (current ≥ startM) && check_day_enabled config.days now.weekday) ||
      (decide (current < endM) && check_day_enabled config.days now.weekday.pred)

end Scheduler

/-! ## Download statistics (`src/settings.rs`) -/

/-- `settings.rs` `DailyStat`. -/
structure DailyStat where
  date : String
  bytes_downloaded : Nat
  seconds_active : Nat
deriving DecidableEq, Repr

namespace AppConfig

/-- The slice `&download_stats[len.saturating_sub(days)..]` taken by
`get_average_speed`: the last `days` entries. -/
def statsWindow (download_stats : List DailyStat) (days : Nat) : List DailyStat :=
  download_stats.drop (download_stats.length - days)

/-- `total_bytes` over the window. -/
def totalBytes (download_stats : List DailyStat) (days : Nat) : Nat :=
  ((statsWindow download_stats days).map (·.bytes_downloaded)).sum

/-- `total_seconds` over the window. -/
def totalSeconds (download_stats : List DailyStat) (days : Nat) : Nat :=
  ((statsWindow download_stats days).map (·.seconds_active)).sum

/-- `AppConfig::get_average_speed` (the config's `download_stats` field is
the only state it reads). -/
def get_average_speed (download_stats : List DailyStat) (days : Nat) : Nat :=
  if download_stats.isEmpty then
    0
  else
    let total_bytes := totalBytes download_stats days
    let total_seconds := totalSeconds download_stats days
    if total_seconds = 0 then 0 else total_bytes / total_seconds

end AppConfig

/-! ## Per-chunk throttling arithmetic (`src/download_manager.rs`) -/

/-- `CHUNK_SIZE` in `download_manager.rs`: 64 KiB chunks. -/
def CHUNK_SIZE : Nat := 65536

/-- `MAX_CONCURRENT` in `download_manager.rs`. -/
def MAX_CONCURRENT : Nat := 2

/-- One past the largest u64 value. -/
def U64_MOD : Nat := 2 ^ 64

/-- The worker's throttling computation in `download_file`:
`(bytes_read as u64 * 1000 * 1000) / (limit_kb * 1024)` over u64, with the
wrap-around of each multiplication made explicit (Nat division by zero is 0;
in the source a zero divisor cannot occur on the `limit_kb > 0` path taken). -/
def min_duration_micros (bytes_read limit_kb : Nat) : Nat :=
  (bytes_read % U64_MOD * 1000 % U64_MOD * 1000 % U64_MOD) /
    (limit_kb % U64_MOD * 1024 % U64_MOD)

/-- The sleep performed after a chunk: if `duration.as_micros() < min_duration_micros`
the worker sleeps `min_duration_micros - elapsed` microseconds, else not at all. -/
def throttle_sleep (elapsed_micros min_micros : Nat) : Nat :=
  if elapsed_micros < min_micros then min_micros - elapsed_micros else 0

/-- Claim C1: the schedule evaluator `is_allowed(schedule, now)` follows
the spec's case analysis for every schedule and wall-clock instant: mode
`None` always yields true; with `current = h*60+m` and `start`, `end` in
minutes, `start = end` means an all-day window, `start < end` allows iff
`start ≤ current < end`, `start > end` allows iff
`current ≥ start ∨ current < end`; Daily mode returns that answer, and
Weekly mode additionally gates by the weekday set, the evening side of an
overnight window consulting today's weekday and the morning side
yesterday's. -/
theorem is_allowed_matches_spec (config : ScheduleConfig) (now : Instant) :
    Scheduler.is_allowed config now = Scheduler.is_allowed_spec config now := by
  rcases config with ⟨mode, st, en, days⟩
  cases mode with
  | None => rfl
  | Daily => rfl
  | Weekly =>
    simp only [Scheduler.is_allowed, Scheduler.is_allowed_spec, Scheduler.check_weekly]
    by_cases h1 : st.hour * 60 + st.minute = en.hour * 60 + en.minute
    · simp [h1]
    · by_cases h2 : st.hour * 60 + st.minute < en.hour * 60 + en.minute
      · simp only [h1, h2, if_true, if_false]
        by_cases h3 : now.hour * 60 + now.minute ≥ st.hour * 60 + st.minute ∧
            now.hour * 60 + now.minute < en.hour * 60 + en.minute
        · simp [h3]
        · simp [h3]
      · simp only [h1, h2, if_false]
        by_cases h3 : now.hour * 60 + now.minute ≥ st.hour * 60 + st.minute
        · have h4 : ¬ now.hour * 60 + now.minute < en.hour * 60 + en.minute := by omega
          simp [h3, h4]
        · by_cases h4 : now.hour * 60 + now.minute < en.hour * 60 + en.minute
          · simp [h3, h4]
          · simp [h3, h4]

/-- Counterexample to Claim C2 as stated: with a single stat of 0 bytes
over 10 active seconds, `get_average_speed` returns 0 although
`total_seconds = 10 ≠ 0`, so "returns 0 iff `total_seconds == 0`" fails in
the only-if direction (integer division truncates to 0). -/
theorem average_speed_zero_with_nonzero_seconds :
    AppConfig.get_average_speed [⟨"2024-01-01", 0, 10⟩] 7 = 0 ∧
    AppConfig.totalSeconds [⟨"2024-01-01", 0, 10⟩] 7 ≠ 0 := by
  decide

/-- Claim C2 (amended): `get_average_speed(days)` returns 0 if the sum
`total_seconds` of `seconds_active` over the last `days` entries is 0, and
otherwise returns `total_bytes / total_seconds` in integer division —
which is itself 0 whenever `total_bytes < total_seconds`, so the returned
value is 0 not only when `total_seconds = 0`. -/
theorem get_average_speed_eq (stats : List DailyStat) (days : Nat) :
    AppConfig.get_average_speed stats days =
      if AppConfig.totalSeconds stats days = 0 then 0
      else AppConfig.totalBytes stats days / AppConfig.totalSeconds stats days := by
  cases stats with
  | nil => simp [AppConfig.get_average_speed, AppConfig.totalSeconds,
      AppConfig.totalBytes, AppConfig.statsWindow]
  | cons s rest =>
    simp only [AppConfig.get_average_speed, List.isEmpty_cons, if_false]
    rfl

/-- Claim C6: for a chunk of `n > 0` bytes under speed limit `limit > 0`
KB/s, the enforced minimum chunk duration is exactly
`n * 1_000_000 / (limit * 1024)` microseconds in exact integer arithmetic
(the u64 products cannot wrap for `n ≤ CHUNK_SIZE` and
`limit * 1024 < 2^64`), and sleeping the difference makes the total chunk
time `max elapsed min_duration`.  The computation reads only the worker's
own `bytes_read` and the shared limit, so the limit applies per active
worker, not in aggregate. -/
theorem throttle_min_duration (n limit elapsed : Nat) (hn : 0 < n) (hc : n ≤ CHUNK_SIZE)
    (hl : 0 < limit) (hu : limit * 1024 < U64_MOD) :
    min_duration_micros n limit = n * 1000000 / (limit * 1024) ∧
    elapsed + throttle_sleep elapsed (min_duration_micros n limit) =
      max elapsed (n * 1000000 / (limit * 1024)) := by
  have hc' : n ≤ 65536 := hc
  have hU : U64_MOD = 18446744073709551616 := by norm_num [U64_MOD]
  have e1 : n % U64_MOD = n := Nat.mod_eq_of_lt (by omega)
  have e2 : n * 1000 % U64_MOD = n * 1000 := Nat.mod_eq_of_lt (by omega)
  have e3 : n * 1000 * 1000 % U64_MOD = n * 1000 * 1000 := Nat.mod_eq_of_lt (by omega)
  have e4 : limit % U64_MOD = limit := Nat.mod_eq_of_lt (by omega)
  have e5 : limit * 1024 % U64_MOD = limit * 1024 := Nat.mod_eq_of_lt (by omega)
  have heq : min_duration_micros n limit = n * 1000000 / (limit * 1024) := by
    unfold min_duration_micros
    rw [e1, e2, e3, e4, e5]
    have hm : n * 1000 * 1000 = n * 1000000 := by ring
    rw [hm]
  refine ⟨heq, ?_⟩
  rw [heq]
  unfold throttle_sleep
  split <;> omega

/-! ## Remote file service (`src/sftp_client.rs`, types from `src/types.rs`) -/

/-- `types.rs` `FileType`. -/
inductive FileType where
  | File | Folder
deriving DecidableEq, Repr

/-- `types.rs` `RemoteFile`. The pretty-printed `size` string and the
`modified` timestamp string are float/time formatting and are not read by
any claim, so they are omitted from the embedding. -/
structure RemoteFile where
  name : String
  path : String
  size_bytes : Nat
  file_type : FileType
deriving DecidableEq, Repr

/-- One raw entry of `sftp.readdir`: the file name taken from the returned
path, and the parts of `FileStat` that `list_dir` reads. -/
structure DirEntry where
  name : String
  is_dir : Bool
  size : Option Nat
deriving DecidableEq, Repr

namespace SftpClient

/-- The `RemoteFile` record `list_dir` builds for one raw entry. -/
def toRemoteFile (canonical : String) (e : DirEntry) : RemoteFile :=
  { name := e.name
    path := canonical ++ "/" ++ e.name
    size_bytes := e.size.getD 0
    file_type := if e.is_dir then .Folder else .File }

/-- The `sort_by` comparator of `list_dir` as a boolean `le`: equal file
types compare by name (`a.name.cmp(&b.name)`), otherwise folders come
first. -/
def rfLe (a b : RemoteFile) : Bool :=
  if a.file_type = b.file_type then decide (a.name ≤ b.name)
  else decide (a.file_type = .Folder)

/-- `SftpClient::list_dir` after a successful `realpath` and `readdir`:
entries named `.` are skipped, records are built, and the result is sorted
by the folders-first-then-name comparator. -/
def list_dir (canonical : String) (entries : List DirEntry) : List RemoteFile :=
  ((entries.filter (fun e => e.name != ".")).map (toRemoteFile canonical)).mergeSort rfLe

end SftpClient

/-- The order the specification asserts for `list_dir` results: every
folder precedes every file, and entries of equal file type are in
non-decreasing name order. -/
def sortSpecRel (a b : RemoteFile) : Prop :=
  (a.file_type = .Folder ∧ b.file_type = .File) ∨
  (a.file_type = b.file_type ∧ a.name ≤ b.name)

/-- A remote tree node, as `recursive_scan` observes it through `readdir`:
a file with its stat size, or a directory whose listing is `none` when
`readdir` fails for it. -/
inductive RNode where
  | file (name : String) (size : Nat)
  | folder (name : String) (listing : Option (List RNode))

namespace SftpClient

mutual

/-- How `recursive_scan` treats one `readdir` entry: names `.` and `..`
are skipped, plain files are emitted, and directories are traversed
(pushed on the scan stack) but never emitted. -/
def scanEntry (dir : String) : RNode → List RemoteFile
  | .file n size =>
      if n = "." ∨ n = ".." then []
      else [{ name := n, path := dir ++ "/" ++ n, size_bytes := size, file_type := .File }]
  | .folder n listing =>
      if n = "." ∨ n = ".." then []
      else scanDir (dir ++ "/" ++ n) listing

/-- The files `recursive_scan` collects below one directory: nothing when
its `readdir` fails (the `if let Ok(entries)` guard), else the entries'
contributions. -/
def scanDir (dir : String) : Option (List RNode) → List RemoteFile
  | none => []
  | some entries => scanEntries dir entries

/-- Contribution of a directory listing, entry by entry. -/
def scanEntries (dir : String) : List RNode → List RemoteFile
  | [] => []
  | e :: rest => scanEntry dir e ++ scanEntries dir rest

end

/-- `SftpClient::recursive_scan` after the initial `realpath` of the root
succeeded: the traversal itself has no failure path, so the call always
returns `Ok`. -/
def recursive_scan (root : String) (listing : Option (List RNode)) :
    Except String (List RemoteFile) :=
  .ok (scanDir root listing)

/-- `SftpClient::download_chunk` over a model of the two files: the remote
file contents (`none` when the remote open fails) and the local file
contents (`none` when no local file exists).  Open remote, seek to
`offset`, read up to `chunk_size` bytes; on a 0-byte read return `Ok 0` at
once; otherwise `File::create` (truncate) when `offset = 0`, else
open-for-append (failing when the local file is absent), and write the
bytes read.  Returns the count and the new local contents. -/
def download_chunk (remote : Option (List Nat)) (local_file : Option (List Nat))
    (offset chunk_size : Nat) : Except String (Nat × Option (List Nat)) :=
  match remote with
  | none => .error "Failed to open remote file"
  | some content =>
    let chunk := (content.drop offset).take chunk_size
    let bytes_read := chunk.length
    if bytes_read = 0 then
      .ok (0, local_file)
    else if offset = 0 then
      match local_file, chunk with
      | _, c => .ok (bytes_read, some c)
    else
      match local_file with
      | none => .error "Failed to open local file for append"
      | some existing => .ok (bytes_read, some (existing ++ chunk))

end SftpClient

/-! ## Download engine (`src/download_manager.rs`, types from `src/mock_data.rs`)

The engine actor is modelled as an explicit transition system.  A step is
either one command handled by the dispatcher (`handle_command`, including
the `process_queue` dispatch loop it triggers) or one atomic piece of a
worker: its blocking connect, or one iteration of its chunk loop (the only
points where the source consults `paused`/`cancelled` and emits events).
The internal `TaskPaused`/`TaskDone` commands a worker sends on exit are
applied synchronously with the worker's exit step.  Chunk outcomes and
connect outcomes are supplied nondeterministically by the step label. -/

/-- `mock_data.rs` `TransferStatus`. -/
inductive TransferStatus where
  | Pending | Downloading | Paused | Completed
  | Failed (message : String)
deriving DecidableEq, Repr

/-- `mock_data.rs` `QueueItem`. -/
structure QueueItem where
  local_location : String
  filename : String
  remote_file : String
  size_bytes : Nat
  bytes_downloaded : Nat
  priority : Nat
  status : TransferStatus
deriving DecidableEq, Repr

/-- `download_manager.rs` `DownloadCommand`. -/
inductive DownloadCommand where
  | StartAll
  | PauseAll
  | ResumeAll
  | Pause (path : String)
  | Resume (path : String)
  | Cancel (path : String)
  | AddItem (item : QueueItem)
  | TaskPaused (remote_file : String) (offset : Nat)
  | TaskDone (remote_file : String)
  | SetSpeedLimit (limit : Nat)
deriving DecidableEq, Repr

/-- `download_manager.rs` `DownloadEvent`. -/
inductive DownloadEvent where
  | Progress (remote_file : String) (bytes_downloaded : Nat)
  | Completed (remote_file : String)
  | Failed (remote_file : String) (error : String)
  | Paused (remote_file : String)
  | Started (remote_file : String)
deriving DecidableEq, Repr

/-- The `remote_file` key an event carries. -/
def DownloadEvent.key : DownloadEvent → String
  | .Progress rf _ => rf
  | .Completed rf => rf
  | .Failed rf _ => rf
  | .Paused rf => rf
  | .Started rf => rf

/-- Event-shape discriminator: `Paused` events. -/
def DownloadEvent.isPausedEv : DownloadEvent → Bool
  | .Paused _ => true
  | _ => false

/-- Event-shape discriminator: `Failed` events. -/
def DownloadEvent.isFailedEv : DownloadEvent → Bool
  | .Failed _ _ => true
  | _ => false

/-- Where a spawned `download_file` task stands: before/inside its blocking
`SftpClient::connect`, or inside its chunk loop. -/
inductive WPhase where
  | connecting | looping
deriving DecidableEq, Repr

/-- A spawned `download_file` task: its key and its running
`bytes_downloaded` counter (started at the dispatch `start_offset`). -/
structure Worker where
  key : String
  bytes : Nat
  phase : WPhase
deriving DecidableEq, Repr

/-- Nondeterministic outcome of a worker's next blocking call: `ok n` is a
successful connect (phase `connecting`) or an `n`-byte chunk read (phase
`looping`, `0` = EOF); `err` is a connect or chunk failure. -/
inductive WorkerOutcome where
  | ok (n : Nat)
  | err (msg : String)
deriving DecidableEq, Repr

/-- The dispatcher state of `DownloadManager` plus the spawned worker
tasks.  `active` is the `HashSet<String>` of keys owned by workers,
`paused` the shared `HashMap<String, u64>`, `cancelled` the shared
`HashSet<String>`. -/
structure SysState where
  queue : List QueueItem
  active : List String
  paused : List (String × Nat)
  cancelled : List String
  is_global_paused : Bool
  speed_limit : Nat
  workers : List Worker
deriving DecidableEq, Repr

/-- One atomic step of the system: a dispatcher command, or one blocking
phase of worker `i` with its nondeterministic outcome. -/
inductive SysStep where
  | cmd (c : DownloadCommand)
  | work (i : Nat) (o : WorkerOutcome)
deriving DecidableEq, Repr

namespace DownloadManager

/-- `HashMap::insert` on the paused map (later entries shadow earlier ones
under `List.lookup`). -/
def pinsert (m : List (String × Nat)) (k : String) (v : Nat) : List (String × Nat) :=
  (k, v) :: m

/-- `HashMap::remove` on the paused map. -/
def premove (m : List (String × Nat)) (k : String) : List (String × Nat) :=
  m.filter (fun kv => kv.1 != k)

/-- `HashSet::remove` on the active set. -/
def serase (l : List String) (k : String) : List String :=
  l.filter (fun x => x != k)

/-- The `TaskPaused` write-back: `queue.iter_mut().find(...)` then
`item.bytes_downloaded = offset` — the first item with the key is updated. -/
def setOffset : List QueueItem → String → Nat → List QueueItem
  | [], _, _ => []
  | it :: rest, k, off =>
      if it.remote_file = k then { it with bytes_downloaded := off } :: rest
      else it :: setOffset rest k off

/-- The candidate filter of `process_queue`: `status == Pending`, key not
active, not in `paused`, not in `cancelled`. -/
def qualifies (s : SysState) (item : QueueItem) : Bool :=
  decide (item.status = .Pending)
    && !(s.active.contains item.remote_file)
    && (List.lookup item.remote_file s.paused).isNone
    && !(s.cancelled.contains item.remote_file)

/-- `self.queue.iter().find(...)` in `process_queue`. -/
def findCandidate (s : SysState) : Option QueueItem :=
  s.queue.find? (qualifies s)

/-- The `start_offset` computation of `process_queue` over a model
`fs : path → Option size` of `std::fs::metadata`: the stored paused offset
if present, else the item's `bytes_downloaded`; then, when that is 0 and a
local file at `{local_location}/{filename}` has `0 < size < size_bytes`,
the local file size (auto-resume). -/
def startOffset (fs : String → Option Nat) (s : SysState) (item : QueueItem) : Nat :=
  let offset :=
    match List.lookup item.remote_file s.paused with
    | some o => o
    | none => item.bytes_downloaded
  if offset = 0 then
    match fs (item.local_location ++ "/" ++ item.filename) with
    | some file_size =>
        if 0 < file_size ∧ file_size < item.size_bytes then file_size else offset
    | none => offset
  else
    offset

/-- The `start_offset` rule as the specification words it: if the item's
key is in `paused`, use the stored offset; else use `item.bytes_downloaded`;
else if that is 0 and a local file exists with `0 < size < size_bytes`,
adopt the local file size. -/
def startOffsetSpec (fs : String → Option Nat) (s : SysState) (item : QueueItem) : Nat :=
  match List.lookup item.remote_file s.paused with
  | some o => o
  | none =>
    if item.bytes_downloaded = 0 then
      match fs (item.local_location ++ "/" ++ item.filename) with
      | some file_size =>
          if 0 < file_size ∧ file_size < item.size_bytes then file_size
          else item.bytes_downloaded
      | none => item.bytes_downloaded
    else
      item.bytes_downloaded

/-- One iteration of the `process_queue` while-body, restricted to what it
selects: the candidate and its start offset (`none` = the loop stops). -/
def dispatchStep (fs : String → Option Nat) (s : SysState) : Option (QueueItem × Nat) :=
  match findCandidate s with
  | some item => some (item, startOffset fs s item)
  | none => none

/-- `DownloadManager::process_queue`: while there is capacity
(`active.len() < MAX_CONCURRENT`) and not globally paused, take the first
qualifying item, compute its start offset, mark it active, emit `Started`,
and spawn a worker; stop when no item qualifies.  `fuel` bounds the loop
(callers pass at least the queue length, which the loop can never
exhaust). -/
def processQueue (fs : String → Option Nat) : Nat → SysState → SysState × List DownloadEvent
  | 0, s => (s, [])
  | fuel + 1, s =>
    if s.active.length < MAX_CONCURRENT ∧ ¬s.is_global_paused then
      match findCandidate s with
      | some item =>
        let off := startOffset fs s item
        let s1 := { s with
          active := item.remote_file :: s.active,
          workers := s.workers ++ [{ key := item.remote_file, bytes := off, phase := .connecting }] }
        let res := processQueue fs fuel s1
        (res.1, .Started item.remote_file :: res.2)
      | none => (s, [])
    else
      (s, [])

/-- `process_queue` with enough fuel for its call site. -/
def runPQ (fs : String → Option Nat) (s : SysState) : SysState × List DownloadEvent :=
  processQueue fs (s.queue.length + 1) s

/-- `DownloadManager::handle_command`. -/
def handle_command (fs : String → Option Nat) (s : SysState) :
    DownloadCommand → SysState × List DownloadEvent
  | .StartAll => runPQ fs { s with is_global_paused := false }
  | .PauseAll =>
      ({ s with
          is_global_paused := true,
          paused := s.active.foldl (fun m path => pinsert m path 0) s.paused }, [])
  | .ResumeAll => runPQ fs { s with is_global_paused := false, paused := [] }
  | .Pause path => ({ s with paused := pinsert s.paused path 0 }, [])
  | .Resume path => runPQ fs { s with paused := premove s.paused path }
  | .Cancel path =>
      ({ s with
          cancelled := path :: s.cancelled,
          queue := s.queue.filter (fun i => i.remote_file != path) }, [])
  | .AddItem item =>
      if s.queue.any (fun i => i.remote_file == item.remote_file)
          || s.active.contains item.remote_file then
        (s, [])
      else
        runPQ fs { s with queue := s.queue ++ [item] }
  | .TaskPaused rf off =>
      ({ s with active := serase s.active rf, queue := setOffset s.queue rf off }, [])
  | .TaskDone rf => runPQ fs { s with active := serase s.active rf }
  | .SetSpeedLimit l => ({ s with speed_limit := l }, [])

/-- One atomic piece of worker `i` in `download_file`.  Connecting: a
failure emits `Failed` and sends `TaskDone`; success enters the chunk
loop.  A loop iteration first checks `paused` (write back the offset, emit
`Paused`, send `TaskPaused`, exit), then `cancelled` (send `TaskDone`,
exit, no event), then performs the chunk: EOF emits `Completed` and sends
`TaskDone`; `n > 0` bytes advances the counter and emits `Progress`; an
error emits `Failed` and sends `TaskDone`.  The dispatcher's handling of
the sent internal command (including the dispatch it triggers) is applied
in the same step. -/
def workerStep (fs : String → Option Nat) (s : SysState) (i : Nat) (o : WorkerOutcome) :
    SysState × List DownloadEvent :=
  match s.workers[i]? with
  | none => (s, [])
  | some w =>
    match w.phase with
    | .connecting =>
      match o with
      | .err msg =>
        let res := runPQ fs { s with workers := s.workers.eraseIdx i,
                                     active := serase s.active w.key }
        (res.1, .Failed w.key msg :: res.2)
      | .ok _ =>
        ({ s with workers := s.workers.set i { w with phase := .looping } }, [])
    | .looping =>
      if (List.lookup w.key s.paused).isSome then
        ({ s with
            paused := pinsert s.paused w.key w.bytes,
            workers := s.workers.eraseIdx i,
            active := serase s.active w.key,
            queue := setOffset s.queue w.key w.bytes },
         [.Paused w.key])
      else if s.cancelled.contains w.key then
        runPQ fs { s with workers := s.workers.eraseIdx i,
                          active := serase s.active w.key }
      else
        match o with
        | .ok 0 =>
          let res := runPQ fs { s with workers := s.workers.eraseIdx i,
                                       active := serase s.active w.key }
          (res.1, .Completed w.key :: res.2)
        | .ok (n + 1) =>
          ({ s with workers := s.workers.set i { w with bytes := w.bytes + (n + 1) } },
           [.Progress w.key (w.bytes + (n + 1))])
        | .err msg =>
          let res := runPQ fs { s with workers := s.workers.eraseIdx i,
                                       active := serase s.active w.key }
          (res.1, .Failed w.key msg :: res.2)

/-- One system step. -/
def step (fs : String → Option Nat) (s : SysState) : SysStep → SysState × List DownloadEvent
  | .cmd c => handle_command fs s c
  | .work i o => workerStep fs s i o

/-- Run a sequence of steps, accumulating the emitted events in order. -/
def run (fs : String → Option Nat) (s : SysState) :
    List SysStep → SysState × List DownloadEvent
  | [] => (s, [])
  | st :: rest =>
    let r1 := step fs s st
    let r2 := run fs r1.1 rest
    (r2.1, r1.2 ++ r2.2)

/-- `DownloadManager::new`: empty queue, no active downloads, nothing
paused or cancelled, not globally paused. -/
def new (initial_speed_limit : Nat) : SysState :=
  { queue := [], active := [], paused := [], cancelled := [],
    is_global_paused := false, speed_limit := initial_speed_limit, workers := [] }

end DownloadManager

namespace DownloadManager

theorem contains_eq_true_iff (l : List String) (a : String) :
    l.contains a = true ↔ a ∈ l := by
  simp

theorem qualifies_not_cancelled {s : SysState} {item : QueueItem}
    (h : qualifies s item = true) : s.cancelled.contains item.remote_file = false := by
  simp only [qualifies, Bool.and_eq_true, Bool.not_eq_true'] at h
  exact h.2

theorem processQueue_fields (fs : String → Option Nat) (fuel : Nat) (s : SysState) :
    (processQueue fs fuel s).1.cancelled = s.cancelled ∧
    (processQueue fs fuel s).1.queue = s.queue ∧
    (processQueue fs fuel s).1.paused = s.paused := by
  induction fuel generalizing s with
  | zero => simp [processQueue]
  | succ n ih =>
    rw [processQueue]
    split
    · cases hfc : findCandidate s with
      | none => simp
      | some item => exact ih _
    · simp

theorem processQueue_active_le (fs : String → Option Nat) (fuel : Nat) :
    ∀ s : SysState, s.active.length ≤ MAX_CONCURRENT →
      (processQueue fs fuel s).1.active.length ≤ MAX_CONCURRENT := by
  induction fuel with
  | zero => intro s hs; simpa [processQueue] using hs
  | succ n ih =>
    intro s hs
    rw [processQueue]
    split
    · next h =>
      cases hfc : findCandidate s with
      | none => exact hs
      | some item =>
        apply ih
        simp only [List.length_cons]
        exact h.1
    · exact hs

theorem processQueue_events (fs : String → Option Nat) (fuel : Nat) :
    ∀ (s : SysState) (ev : DownloadEvent), ev ∈ (processQueue fs fuel s).2 →
      ∃ k, ev = .Started k ∧ s.cancelled.contains k = false := by
  induction fuel with
  | zero => intro s ev h; simp [processQueue] at h
  | succ n ih =>
    intro s ev hev
    rw [processQueue] at hev
    revert hev
    split
    · cases hfc : findCandidate s with
      | none => intro hev; simp at hev
      | some item =>
        intro hev
        rcases List.mem_cons.mp hev with rfl | hev
        · exact ⟨item.remote_file, rfl, qualifies_not_cancelled (List.find?_some hfc)⟩
        · obtain ⟨k, hk, hc⟩ := ih _ ev hev
          exact ⟨k, hk, hc⟩
    · intro hev; simp at hev

end DownloadManager

namespace DownloadManager

theorem runPQ_cancelled (fs : String → Option Nat) (s : SysState) :
    (runPQ fs s).1.cancelled = s.cancelled :=
  (processQueue_fields fs _ s).1

theorem runPQ_queue (fs : String → Option Nat) (s : SysState) :
    (runPQ fs s).1.queue = s.queue :=
  (processQueue_fields fs _ s).2.1

theorem runPQ_active_le (fs : String → Option Nat) (s : SysState)
    (h : s.active.length ≤ MAX_CONCURRENT) :
    (runPQ fs s).1.active.length ≤ MAX_CONCURRENT :=
  processQueue_active_le fs _ s h

theorem runPQ_events (fs : String → Option Nat) (s : SysState) (ev : DownloadEvent)
    (h : ev ∈ (runPQ fs s).2) :
    ∃ k, ev = .Started k ∧ s.cancelled.contains k = false :=
  processQueue_events fs _ s ev h

theorem serase_length_le (l : List String) (k : String) :
    (serase l k).length ≤ l.length :=
  List.length_filter_le _ _

theorem step_cancelled_mono (fs : String → Option Nat) (s : SysState) (st : SysStep)
    (k : String) (h : k ∈ s.cancelled) : k ∈ (step fs s st).1.cancelled := by
  cases st with
  | cmd c =>
    cases c with
    | StartAll =>
      show k ∈ (runPQ fs _).1.cancelled
      rw [runPQ_cancelled]; exact h
    | PauseAll => exact h
    | ResumeAll =>
      show k ∈ (runPQ fs _).1.cancelled
      rw [runPQ_cancelled]; exact h
    | Pause p => exact h
    | Resume p =>
      show k ∈ (runPQ fs _).1.cancelled
      rw [runPQ_cancelled]; exact h
    | Cancel p => exact List.mem_cons_of_mem _ h
    | AddItem item =>
      simp only [step, handle_command]
      split
      · exact h
      · rw [runPQ_cancelled]; exact h
    | TaskPaused rf off => exact h
    | TaskDone rf =>
      show k ∈ (runPQ fs _).1.cancelled
      rw [runPQ_cancelled]; exact h
    | SetSpeedLimit l => exact h
  | work i o =>
    simp only [step, workerStep]
    cases hw : s.workers[i]? with
    | none => exact h
    | some w =>
      rcases w with ⟨wk, wb, wph⟩
      cases wph with
      | connecting =>
        cases o with
        | err msg =>
          dsimp only
          rw [runPQ_cancelled]; exact h
        | ok n => exact h
      | looping =>
        dsimp only
        split
        · exact h
        · split
          · rw [runPQ_cancelled]; exact h
          · cases o with
            | ok n =>
              cases n with
              | zero =>
                dsimp only
                rw [runPQ_cancelled]; exact h
              | succ m => exact h
            | err msg =>
              dsimp only
              rw [runPQ_cancelled]; exact h

theorem step_active_le (fs : String → Option Nat) (s : SysState) (st : SysStep)
    (h : s.active.length ≤ MAX_CONCURRENT) :
    (step fs s st).1.active.length ≤ MAX_CONCURRENT := by
  cases st with
  | cmd c =>
    cases c with
    | StartAll => exact runPQ_active_le fs _ h
    | PauseAll => exact h
    | ResumeAll => exact runPQ_active_le fs _ h
    | Pause p => exact h
    | Resume p => exact runPQ_active_le fs _ h
    | Cancel p => exact h
    | AddItem item =>
      simp only [step, handle_command]
      split
      · exact h
      · exact runPQ_active_le fs _ h
    | TaskPaused rf off => exact le_trans (serase_length_le _ _) h
    | TaskDone rf => exact runPQ_active_le fs _ (le_trans (serase_length_le _ _) h)
    | SetSpeedLimit l => exact h
  | work i o =>
    simp only [step, workerStep]
    cases hw : s.workers[i]? with
    | none => exact h
    | some w =>
      rcases w with ⟨wk, wb, wph⟩
      cases wph with
      | connecting =>
        cases o with
        | err msg =>
          dsimp only
          exact runPQ_active_le fs _ (le_trans (serase_length_le _ _) h)
        | ok n => exact h
      | looping =>
        dsimp only
        split
        · exact le_trans (serase_length_le _ _) h
        · split
          · exact runPQ_active_le fs _ (le_trans (serase_length_le _ _) h)
          · cases o with
            | ok n =>
              cases n with
              | zero =>
                dsimp only
                exact runPQ_active_le fs _ (le_trans (serase_length_le _ _) h)
              | succ m => exact h
            | err msg =>
              dsimp only
              exact runPQ_active_le fs _ (le_trans (serase_length_le _ _) h)

end DownloadManager

namespace DownloadManager

theorem no_pq_event_for_cancelled (fs : String → Option Nat) {x : SysState} {p : String}
    {ev : DownloadEvent} (hev : ev ∈ (runPQ fs x).2) (hp : p ∈ x.cancelled)
    (hk : ev.key = p) : False := by
  obtain ⟨k, rfl, hc⟩ := runPQ_events fs x ev hev
  simp only [DownloadEvent.key] at hk
  subst hk
  rw [(contains_eq_true_iff x.cancelled k).mpr hp] at hc
  exact Bool.noConfusion hc

theorem step_events_cancelled (fs : String → Option Nat) (s : SysState) (st : SysStep)
    (p : String) (hp : p ∈ s.cancelled) (ev : DownloadEvent)
    (hev : ev ∈ (step fs s st).2) (hk : ev.key = p) :
    ev.isPausedEv = true ∨ ev.isFailedEv = true := by
  cases st with
  | cmd c =>
    cases c with
    | StartAll => exact (no_pq_event_for_cancelled fs hev hp hk).elim
    | PauseAll => exact absurd hev (List.not_mem_nil ev)
    | ResumeAll => exact (no_pq_event_for_cancelled fs hev hp hk).elim
    | Pause q => exact absurd hev (List.not_mem_nil ev)
    | Resume q => exact (no_pq_event_for_cancelled fs hev hp hk).elim
    | Cancel q => exact absurd hev (List.not_mem_nil ev)
    | AddItem item =>
      simp only [step, handle_command] at hev
      split at hev
      · exact absurd hev (List.not_mem_nil ev)
      · exact (no_pq_event_for_cancelled fs hev hp hk).elim
    | TaskPaused rf off => exact absurd hev (List.not_mem_nil ev)
    | TaskDone rf => exact (no_pq_event_for_cancelled fs hev hp hk).elim
    | SetSpeedLimit l => exact absurd hev (List.not_mem_nil ev)
  | work i o =>
    simp only [step, workerStep] at hev
    revert hev
    cases hw : s.workers[i]? with
    | none => intro hev; exact absurd hev (List.not_mem_nil ev)
    | some w =>
      rcases w with ⟨wk, wb, wph⟩
      cases wph with
      | connecting =>
        cases o with
        | err msg =>
          dsimp only
          intro hev
          rcases List.mem_cons.mp hev with rfl | hev
          · right; rfl
          · exact (no_pq_event_for_cancelled fs hev hp hk).elim
        | ok n => intro hev; exact absurd hev (List.not_mem_nil ev)
      | looping =>
        dsimp only
        intro hev
        split at hev
        · rcases List.mem_cons.mp hev with rfl | hev
          · left; rfl
          · exact absurd hev (List.not_mem_nil ev)
        · split at hev
          · exact (no_pq_event_for_cancelled fs hev hp hk).elim
          · next hcan =>
            cases o with
            | ok n =>
              cases n with
              | zero =>
                rcases List.mem_cons.mp hev with rfl | hev
                · exfalso
                  simp only [DownloadEvent.key] at hk
                  subst hk
                  exact hcan ((contains_eq_true_iff _ _).mpr hp)
                · exact (no_pq_event_for_cancelled fs hev hp hk).elim
              | succ m =>
                rcases List.mem_cons.mp hev with rfl | hev
                · exfalso
                  simp only [DownloadEvent.key] at hk
                  subst hk
                  exact hcan ((contains_eq_true_iff _ _).mpr hp)
                · exact absurd hev (List.not_mem_nil ev)
            | err msg =>
              rcases List.mem_cons.mp hev with rfl | hev
              · right; rfl
              · exact (no_pq_event_for_cancelled fs hev hp hk).elim

theorem setOffset_keys (q : List QueueItem) (k : String) (off : Nat) :
    (setOffset q k off).map (fun i => i.remote_file) = q.map (fun i => i.remote_file) := by
  induction q with
  | nil => rfl
  | cons it rest ih =>
    rw [setOffset]
    split
    · simp
    · simp [ih]

theorem step_queue_keys_nodup (fs : String → Option Nat) (s : SysState) (st : SysStep)
    (h : (s.queue.map (fun i => i.remote_file)).Nodup) :
    ((step fs s st).1.queue.map (fun i => i.remote_file)).Nodup := by
  cases st with
  | cmd c =>
    cases c with
    | StartAll =>
      show (((runPQ fs _).1.queue).map _).Nodup
      rw [runPQ_queue]; exact h
    | PauseAll => exact h
    | ResumeAll =>
      show (((runPQ fs _).1.queue).map _).Nodup
      rw [runPQ_queue]; exact h
    | Pause q => exact h
    | Resume q =>
      show (((runPQ fs _).1.queue).map _).Nodup
      rw [runPQ_queue]; exact h
    | Cancel q =>
      exact List.Nodup.sublist ((List.filter_sublist _).map _) h
    | AddItem item =>
      simp only [step, handle_command]
      split
      · exact h
      · next hguard =>
        show (((runPQ fs _).1.queue).map _).Nodup
        rw [runPQ_queue]
        have hnotin : item.remote_file ∉ s.queue.map (fun i => i.remote_file) := by
          intro hmem
          apply hguard
          rcases List.mem_map.mp hmem with ⟨x, hx, hxe⟩
          have hany : (s.queue.any fun i => i.remote_file == item.remote_file) = true :=
            List.any_eq_true.mpr ⟨x, hx, by simp [hxe]⟩
          simp [hany]
        simp [List.nodup_append, h, hnotin]
    | TaskPaused rf off =>
      show ((setOffset s.queue rf off).map _).Nodup
      rw [setOffset_keys]; exact h
    | TaskDone rf =>
      show (((runPQ fs _).1.queue).map _).Nodup
      rw [runPQ_queue]; exact h
    | SetSpeedLimit l => exact h
  | work i o =>
    simp only [step, workerStep]
    cases hw : s.workers[i]? with
    | none => exact h
    | some w =>
      rcases w with ⟨wk, wb, wph⟩
      cases wph with
      | connecting =>
        cases o with
        | err msg =>
          dsimp only
          rw [runPQ_queue]; exact h
        | ok n => exact h
      | looping =>
        dsimp only
        split
        · show ((setOffset s.queue wk wb).map _).Nodup
          rw [setOffset_keys]; exact h
        · split
          · rw [runPQ_queue]; exact h
          · cases o with
            | ok n =>
              cases n with
              | zero =>
                dsimp only
                rw [runPQ_queue]; exact h
              | succ m => exact h
            | err msg =>
              dsimp only
              rw [runPQ_queue]; exact h

end DownloadManager

namespace DownloadManager

theorem run_cancelled_mono (fs : String → Option Nat) (steps : List SysStep) :
    ∀ (s : SysState) (k : String), k ∈ s.cancelled → k ∈ (run fs s steps).1.cancelled := by
  induction steps with
  | nil => intro s k h; exact h
  | cons st rest ih =>
    intro s k h
    exact ih _ k (step_cancelled_mono fs s st k h)

theorem run_active_le (fs : String → Option Nat) (steps : List SysStep) :
    ∀ s : SysState, s.active.length ≤ MAX_CONCURRENT →
      ((run fs s steps).1).active.length ≤ MAX_CONCURRENT := by
  induction steps with
  | nil => intro s h; exact h
  | cons st rest ih =>
    intro s h
    exact ih _ (step_active_le fs s st h)

theorem run_queue_keys_nodup (fs : String → Option Nat) (steps : List SysStep) :
    ∀ s : SysState, (s.queue.map (fun i => i.remote_file)).Nodup →
      (((run fs s steps).1).queue.map (fun i => i.remote_file)).Nodup := by
  induction steps with
  | nil => intro s h; exact h
  | cons st rest ih =>
    intro s h
    exact ih _ (step_queue_keys_nodup fs s st h)

theorem startOffset_eq_spec (fs : String → Option Nat) (s : SysState) (item : QueueItem)
    (h : List.lookup item.remote_file s.paused = none) :
    startOffset fs s item = startOffsetSpec fs s item := by
  simp [startOffset, startOffsetSpec, h]

end DownloadManager

/-- An empty local filesystem for concrete evaluations: `std::fs::metadata`
fails for every path. -/
def noFS : String → Option Nat := fun _ => none

/-- A concrete pending queue item used to instantiate theorems. -/
def sampleItem : QueueItem :=
  { local_location := "/tmp", filename := "a.bin", remote_file := "/r/a.bin",
    size_bytes := 100, bytes_downloaded := 7, priority := 0, status := .Pending }

/-- A concrete engine state whose queue holds `sampleItem`. -/
def sampleState : SysState :=
  { queue := [sampleItem], active := [], paused := [], cancelled := [],
    is_global_paused := false, speed_limit := 0, workers := [] }

/-- Claim C3: one iteration of `process_queue` selects as candidate the
first queue item (in insertion order) whose status is `Pending` and whose
key is in none of `active`, `paused`, `cancelled`; its start offset follows
the spec's rule (stored paused offset, else `bytes_downloaded`, else the
size of a partial local file when that value is 0); if no item qualifies,
dispatch stops. -/
theorem process_queue_selection (fs : String → Option Nat) (s : SysState) :
    (∀ item off, DownloadManager.dispatchStep fs s = some (item, off) →
      (DownloadManager.qualifies s item = true ∧
        ∃ l1 l2, s.queue = l1 ++ item :: l2 ∧
          ∀ x ∈ l1, DownloadManager.qualifies s x = false) ∧
      off = DownloadManager.startOffsetSpec fs s item) ∧
    (DownloadManager.dispatchStep fs s = none →
      ∀ item ∈ s.queue, DownloadManager.qualifies s item = false) := by
  constructor
  · intro item off h
    rw [DownloadManager.dispatchStep] at h
    cases hfc : DownloadManager.findCandidate s with
    | none => rw [hfc] at h; exact Option.noConfusion h
    | some it =>
      rw [hfc] at h
      simp only [Option.some.injEq, Prod.mk.injEq] at h
      obtain ⟨h1, h2⟩ := h
      subst h1
      subst h2
      obtain ⟨hq, l1, l2, hsplit, hprev⟩ := List.find?_eq_some.mp hfc
      refine ⟨⟨hq, l1, l2, hsplit, ?_⟩, ?_⟩
      · intro x hx
        simpa using hprev x hx
      · have hl : List.lookup it.remote_file s.paused = none := by
          have hq' := hq
          simp only [DownloadManager.qualifies, Bool.and_eq_true] at hq'
          exact Option.isNone_iff_eq_none.mp hq'.1.2
        exact DownloadManager.startOffset_eq_spec fs s it hl
  · intro h item hit
    rw [DownloadManager.dispatchStep] at h
    cases hfc : DownloadManager.findCandidate s with
    | some it => rw [hfc] at h; exact Option.noConfusion h
    | none => simpa using List.find?_eq_none.mp hfc item hit

/-- Witness for C3: on the concrete one-item state the dispatcher selects
`sampleItem` with start offset 7 = its `bytes_downloaded`. -/
theorem process_queue_selection_witness :
    (DownloadManager.qualifies sampleState sampleItem = true ∧
      ∃ l1 l2, sampleState.queue = l1 ++ sampleItem :: l2 ∧
        ∀ x ∈ l1, DownloadManager.qualifies sampleState x = false) ∧
    7 = DownloadManager.startOffsetSpec noFS sampleState sampleItem :=
  (process_queue_selection noFS sampleState).1 sampleItem 7 (by decide)

/-- Claim C4: in every state reachable from the initial engine state by
any sequence of commands and worker steps, the active set holds at most
`MAX_CONCURRENT = 2` keys. -/
theorem active_le_max_concurrent (fs : String → Option Nat) (speed : Nat)
    (steps : List SysStep) :
    ((DownloadManager.run fs (DownloadManager.new speed) steps).1).active.length ≤
      MAX_CONCURRENT :=
  DownloadManager.run_active_le fs steps (DownloadManager.new speed) (Nat.zero_le _)

/-- Claim C9: the `remote_file` key is unique across the queue in every
state reachable from the initial engine state. -/
theorem remote_file_unique (fs : String → Option Nat) (speed : Nat)
    (steps : List SysStep) :
    ((((DownloadManager.run fs (DownloadManager.new speed) steps).1).queue).map
      (fun i => i.remote_file)).Nodup :=
  DownloadManager.run_queue_keys_nodup fs steps (DownloadManager.new speed) List.nodup_nil

/-- Claim C5 (amended): once `Cancel(p)` has been processed (`p` is in the
cancelled set), every event for `p` that can still be emitted — under any
later commands and worker steps — is a `Paused(p)` (an already-active
worker that also finds `p` in the paused map) or a `Failed(p)` (an
already-active worker whose connect fails); in particular no `Started(p)`,
`Progress(p)` or `Completed(p)` is ever emitted again. -/
theorem after_cancel_only_pause_or_failure (fs : String → Option Nat)
    (s : SysState) (p : String) (hp : p ∈ s.cancelled)
    (steps : List SysStep) :
    ∀ ev ∈ (DownloadManager.run fs s steps).2, ev.key = p →
      ev.isPausedEv = true ∨ ev.isFailedEv = true := by
  induction steps generalizing s with
  | nil => intro ev hev hk; exact absurd hev (List.not_mem_nil ev)
  | cons st rest ih =>
    intro ev hev hk
    have hev' : ev ∈ (DownloadManager.step fs s st).2 ++
        (DownloadManager.run fs (DownloadManager.step fs s st).1 rest).2 := hev
    rcases List.mem_append.mp hev' with h1 | h2
    · exact DownloadManager.step_events_cancelled fs s st p hp ev h1 hk
    · exact ih _ (DownloadManager.step_cancelled_mono fs s st p hp) ev h2 hk

/-- A state with `/r/a.bin` cancelled while a worker for it is still in its
chunk loop and the key is also in the paused map. -/
def cancelledState : SysState :=
  { queue := [], active := ["/r/a.bin"], paused := [("/r/a.bin", 0)],
    cancelled := ["/r/a.bin"], is_global_paused := false, speed_limit := 0,
    workers := [{ key := "/r/a.bin", bytes := 3, phase := .looping }] }

/-- Witness for the amended C5: from `cancelledState` one worker step emits
`Paused("/r/a.bin")`, and the theorem classifies it. -/
theorem after_cancel_only_pause_or_failure_witness :
    (DownloadEvent.Paused "/r/a.bin").isPausedEv = true ∨
    (DownloadEvent.Paused "/r/a.bin").isFailedEv = true :=
  after_cancel_only_pause_or_failure noFS cancelledState "/r/a.bin" (by decide)
    [.work 0 (.ok 1)] (DownloadEvent.Paused "/r/a.bin") (by decide) (by decide)

/-- A pending item whose download never started when it gets cancelled. -/
def cxItem : QueueItem :=
  { local_location := "/tmp", filename := "a.bin", remote_file := "/r/a.bin",
    size_bytes := 100, bytes_downloaded := 0, priority := 0, status := .Pending }

/-- The state after `AddItem(cxItem)` (which dispatches a worker),
`Pause("/r/a.bin")`, then `Cancel("/r/a.bin")`. -/
def cxMid : SysState :=
  (DownloadManager.run noFS (DownloadManager.new 0)
    [.cmd (.AddItem cxItem), .cmd (.Pause "/r/a.bin"), .cmd (.Cancel "/r/a.bin")]).1

/-- Counterexample to C5 as stated: after `Cancel("/r/a.bin")` has been
processed (the key is in the cancelled set of `cxMid`), the still-active
worker connects and then observes the pause flag, emitting a further
`Paused("/r/a.bin")` event. -/
theorem event_after_cancel : "/r/a.bin" ∈ cxMid.cancelled ∧
    DownloadEvent.Paused "/r/a.bin" ∈
      (DownloadManager.run noFS cxMid [.work 0 (.ok 1), .work 0 (.ok 1)]).2 := by
  decide

/-- Witness for C6: a full 64 KiB chunk at 64 KB/s must take at least one
second (1,000,000 microseconds). -/
theorem throttle_min_duration_witness :
    min_duration_micros 65536 64 = 65536 * 1000000 / (64 * 1024) ∧
    0 + throttle_sleep 0 (min_duration_micros 65536 64) =
      max 0 (65536 * 1000000 / (64 * 1024)) :=
  throttle_min_duration 65536 64 0 (by decide) (by decide) (by decide)
    (by norm_num [U64_MOD])

theorem rfLe_trans (a b c : RemoteFile) (h1 : SftpClient.rfLe a b = true)
    (h2 : SftpClient.rfLe b c = true) : SftpClient.rfLe a c = true := by
  rcases a with ⟨an, ap, az, aft⟩
  rcases b with ⟨bn, bp, bz, bft⟩
  rcases c with ⟨cn, cp, cz, cft⟩
  cases aft <;> cases bft <;> cases cft <;>
      simp_all [SftpClient.rfLe] <;>
    exact le_trans h1 h2

theorem rfLe_total (a b : RemoteFile) :
    (SftpClient.rfLe a b || SftpClient.rfLe b a) = true := by
  rcases a with ⟨an, ap, az, aft⟩
  rcases b with ⟨bn, bp, bz, bft⟩
  cases aft <;> cases bft <;> simp_all [SftpClient.rfLe] <;> exact le_total _ _

/-- Claim C7: `list_dir` returns no entry named `.`, and the result is
sorted folders-first then by name ascending: pairwise, either the earlier
entry is a folder and the later a file, or both have the same file type
and the names are in non-decreasing (case-sensitive) order. -/
theorem list_dir_sorted (canonical : String) (entries : List DirEntry) :
    (∀ f ∈ SftpClient.list_dir canonical entries, f.name ≠ ".") ∧
    List.Pairwise sortSpecRel (SftpClient.list_dir canonical entries) := by
  constructor
  · intro f hf
    rw [SftpClient.list_dir] at hf
    have hf' := (List.mergeSort_perm _ SftpClient.rfLe).mem_iff.mp hf
    rcases List.mem_map.mp hf' with ⟨e, he, rfl⟩
    rcases List.mem_filter.mp he with ⟨hemem, hne⟩
    simpa [SftpClient.toRemoteFile] using hne
  · have hs := @List.sorted_mergeSort RemoteFile SftpClient.rfLe rfLe_trans rfLe_total
      ((entries.filter (fun e => e.name != ".")).map (SftpClient.toRemoteFile canonical))
    rw [SftpClient.list_dir]
    refine hs.imp ?_
    intro a b hab
    rw [SftpClient.rfLe] at hab
    by_cases hft : a.file_type = b.file_type
    · right
      rw [if_pos hft] at hab
      exact ⟨hft, of_decide_eq_true hab⟩
    · left
      rw [if_neg hft] at hab
      have ha : a.file_type = .Folder := of_decide_eq_true hab
      refine ⟨ha, ?_⟩
      cases hbf : b.file_type with
      | Folder => exact absurd (ha.trans hbf.symm) hft
      | File => rfl

/-- A concrete raw directory entry. -/
def sampleEntry : DirEntry := { name := "a.txt", is_dir := false, size := some 5 }

/-- Witness for C7: the listed entry built from `sampleEntry` is not named
`.`. -/
theorem list_dir_sorted_witness :
    (SftpClient.toRemoteFile "/d" sampleEntry).name ≠ "." :=
  (list_dir_sorted "/d" [sampleEntry]).1 _
    ((List.mergeSort_perm _ SftpClient.rfLe).mem_iff.mpr
      (List.mem_map.mpr ⟨sampleEntry,
        List.mem_filter.mpr ⟨List.mem_singleton.mpr rfl, by decide⟩, rfl⟩))

theorem scan_files_only :
    (∀ (dir : String) (node : RNode), ∀ f ∈ SftpClient.scanEntry dir node,
        f.file_type = .File ∧ f.name ≠ "." ∧ f.name ≠ "..") ∧
    (∀ (dir : String) (listing : Option (List RNode)),
        ∀ f ∈ SftpClient.scanDir dir listing,
        f.file_type = .File ∧ f.name ≠ "." ∧ f.name ≠ "..") ∧
    (∀ (dir : String) (l : List RNode), ∀ f ∈ SftpClient.scanEntries dir l,
        f.file_type = .File ∧ f.name ≠ "." ∧ f.name ≠ "..") := by
  apply SftpClient.scanEntry.mutual_induct
    (motive_1 := fun dir node => ∀ f ∈ SftpClient.scanEntry dir node,
      f.file_type = .File ∧ f.name ≠ "." ∧ f.name ≠ "..")
    (motive_2 := fun dir listing => ∀ f ∈ SftpClient.scanDir dir listing,
      f.file_type = .File ∧ f.name ≠ "." ∧ f.name ≠ "..")
    (motive_3 := fun dir l => ∀ f ∈ SftpClient.scanEntries dir l,
      f.file_type = .File ∧ f.name ≠ "." ∧ f.name ≠ "..")
  · intro dir n size hdot f hf
    simp [SftpClient.scanEntry, hdot] at hf
  · intro dir n size hdot f hf
    rw [SftpClient.scanEntry, if_neg hdot] at hf
    rcases List.mem_singleton.mp hf with rfl
    push_neg at hdot
    exact ⟨rfl, hdot.1, hdot.2⟩
  · intro dir n listing hdot f hf
    simp [SftpClient.scanEntry, hdot] at hf
  · intro dir n listing hdot ih f hf
    rw [SftpClient.scanEntry, if_neg hdot] at hf
    exact ih f hf
  · intro dir f hf
    simp [SftpClient.scanDir] at hf
  · intro dir entries ih f hf
    rw [SftpClient.scanDir] at hf
    exact ih f hf
  · intro dir f hf
    simp [SftpClient.scanEntries] at hf
  · intro dir e rest ih1 ih3 f hf
    rw [SftpClient.scanEntries] at hf
    rcases List.mem_append.mp hf with h1 | h2
    · exact ih1 f h1
    · exact ih3 f h2

theorem scanEntries_append (dir : String) (l1 l2 : List RNode) :
    SftpClient.scanEntries dir (l1 ++ l2) =
      SftpClient.scanEntries dir l1 ++ SftpClient.scanEntries dir l2 := by
  induction l1 with
  | nil => simp [SftpClient.scanEntries]
  | cons e rest ih =>
    simp only [List.cons_append, SftpClient.scanEntries, List.append_eq, ih, List.append_assoc]

theorem scanEntry_folder_failed (dir n : String) :
    SftpClient.scanEntry dir (RNode.folder n none) = [] := by
  rw [SftpClient.scanEntry]
  split
  · rfl
  · rw [SftpClient.scanDir]

/-- Claim C8: `recursive_scan` returns only entries with file type `File`
(folders are traversed, never emitted), never returns an entry named `.`
or `..`, the overall call succeeds (the traversal after the root
canonicalization has no failure path), a directory whose listing fails
contributes no entries, and the surrounding traversal continues around
it. -/
theorem recursive_scan_files_only :
    (∀ (root : String) (listing : Option (List RNode)) (res : List RemoteFile),
        SftpClient.recursive_scan root listing = .ok res →
        ∀ f ∈ res, f.file_type = .File ∧ f.name ≠ "." ∧ f.name ≠ "..") ∧
    (∀ (root : String) (listing : Option (List RNode)),
        SftpClient.recursive_scan root listing = .ok (SftpClient.scanDir root listing)) ∧
    (∀ dir : String, SftpClient.scanDir dir none = []) ∧
    (∀ (dir n : String) (pre post : List RNode),
        SftpClient.scanEntries dir (pre ++ RNode.folder n none :: post) =
          SftpClient.scanEntries dir pre ++ SftpClient.scanEntries dir post) := by
  refine ⟨?_, ?_, ?_, ?_⟩
  · intro root listing res hok f hf
    rw [SftpClient.recursive_scan] at hok
    simp only [Except.ok.injEq] at hok
    subst hok
    exact scan_files_only.2.1 root listing f hf
  · intro root listing
    rfl
  · intro dir
    rw [SftpClient.scanDir]
  · intro dir n pre post
    rw [scanEntries_append, SftpClient.scanEntries, scanEntry_folder_failed]
    simp

/-- The record `recursive_scan` emits for a file entry `a.bin` of size 5
directly under the scanned root `/r`. -/
def scannedFile : RemoteFile :=
  { name := "a.bin", path := "/r" ++ "/" ++ "a.bin", size_bytes := 5, file_type := .File }

/-- Witness for C8: scanning a root containing the single file `a.bin`
yields only that file record, and it is a `File` not named `.` or `..`. -/
theorem recursive_scan_files_only_witness :
    scannedFile.file_type = .File ∧ scannedFile.name ≠ "." ∧ scannedFile.name ≠ ".." :=
  recursive_scan_files_only.1 "/r" (some [RNode.file "a.bin" 5]) _ rfl scannedFile
    (by simp [SftpClient.scanDir, SftpClient.scanEntries, SftpClient.scanEntry, scannedFile])

/-- Claim C10: whenever the remote read at `offset` returns 0 bytes,
`download_chunk` returns `Ok 0` without touching the local file (it is
neither created nor truncated nor modified), and in particular a
zero-length remote file produces no local file at all. -/
theorem download_chunk_eof_leaves_local (content : List Nat)
    (local_file : Option (List Nat)) (offset chunk_size : Nat)
    (h : ((content.drop offset).take chunk_size).length = 0) :
    SftpClient.download_chunk (some content) local_file offset chunk_size =
      .ok (0, local_file) ∧
    SftpClient.download_chunk (some ([] : List Nat)) none offset chunk_size =
      .ok (0, none) := by
  constructor
  · simp [SftpClient.download_chunk, h]
  · simp [SftpClient.download_chunk]

/-- Witness for C10: reading past the end of a 3-byte remote file returns
`Ok 0` and leaves the 1-byte local file exactly as it was; the zero-length
remote creates nothing. -/
theorem download_chunk_eof_leaves_local_witness :
    SftpClient.download_chunk (some [1, 2, 3]) (some [9]) 5 4 = .ok (0, some [9]) ∧
    SftpClient.download_chunk (some ([] : List Nat)) none 5 4 = .ok (0, none) :=
  download_chunk_eof_leaves_local [1, 2, 3] (some [9]) 5 4 (by decide)
